/-
  Verification of the serving-time resilience layer (circuit breaker,
  cache-aside client, sliding-window rate limiter) of the beamAI backend.

  Shallow embedding of:
    src/backend/app/core/circuit_breaker.py
    src/backend/app/core/rate_limit.py
    src/backend/app/core/cache.py

  Timestamps are modelled as integers (the code uses `time.time()` floats
  only for ordering, differences and equality of stringified members);
  fractions (failure threshold, half-open test percentage, error rate) are
  modelled as rationals.
-/
import Mathlib

namespace BeamAI

/-! ## Circuit breaker (circuit_breaker.py) -/

/-- `CircuitState` enum: CLOSED / OPEN / HALF_OPEN. -/
inductive CircuitState where
  | closed
  | opened
  | halfOpen
deriving DecidableEq, Repr

/-- State of one `CircuitBreaker` instance.  Field defaults mirror the
defaults of `CircuitBreaker.__init__`. -/
structure CircuitBreaker where
  failureThreshold : ℚ := mkRat 1 2
  timeWindowSeconds : ℤ := 60
  openDurationSeconds : ℤ := 30
  halfOpenTestPercentage : ℚ := mkRat 1 10
  minRequestsForThreshold : ℕ := 10
  state : CircuitState := .closed
  requestHistory : List (ℤ × Bool) := []
  openedAt : Option ℤ := none
  halfOpenTestCount : ℕ := 0
  halfOpenSuccessCount : ℕ := 0
  halfOpenFailureCount : ℕ := 0
deriving DecidableEq, Repr

/-- The pruning loop at the top of `_update_state`: pop entries from the
front of the deque while their timestamp is `< now - time_window_seconds`. -/
def pruneHistory (now window : ℤ) (h : List (ℤ × Bool)) : List (ℤ × Bool) :=
  h.dropWhile (fun p => p.1 < now - window)

/-- `failures = sum(1 for _, success in history if not success)`. -/
def historyFailures (h : List (ℤ × Bool)) : ℕ :=
  (h.filter (fun p => !p.2)).length

/-- `error_rate = failures / total if total > 0 else 0.0` (the exact
rational `failures / total`, written with the kernel-computable `mkRat`). -/
def historyErrorRate (h : List (ℤ × Bool)) : ℚ :=
  if 0 < h.length then mkRat (historyFailures h) h.length else 0

/-- `CircuitBreaker._update_state`: prune the history, then apply the lazy
OPEN→HALF_OPEN transition (when `open_duration_seconds` have elapsed since
`opened_at`, resetting the three half-open counters) or the CLOSED→OPEN
transition (when the pruned history holds at least
`min_requests_for_threshold` entries and the error rate reaches
`failure_threshold`, setting `opened_at = now`). -/
def updateState (now : ℤ) (b : CircuitBreaker) : CircuitBreaker :=
  let hist := pruneHistory now b.timeWindowSeconds b.requestHistory
  match b.state with
  | .opened =>
    match b.openedAt with
    | some t =>
      if b.openDurationSeconds ≤ now - t then
        { b with requestHistory := hist, state := .halfOpen,
                 halfOpenTestCount := 0, halfOpenSuccessCount := 0,
                 halfOpenFailureCount := 0 }
      else
        { b with requestHistory := hist }
    | none => { b with requestHistory := hist }
  | .halfOpen => { b with requestHistory := hist }
  | .closed =>
    if b.minRequestsForThreshold ≤ hist.length ∧
        b.failureThreshold ≤ historyErrorRate hist then
      { b with requestHistory := hist, state := .opened, openedAt := some now }
    else
      { b with requestHistory := hist }

/-- `int(1 / self.half_open_test_percentage)`: for a positive percentage
`num/den` in lowest terms, `1 / pct = den / num` and Python's `int`
truncation is integer division. -/
def halfOpenDivisor (b : CircuitBreaker) : ℤ :=
  (b.halfOpenTestPercentage.den : ℤ) / b.halfOpenTestPercentage.num

/-- `CircuitBreaker._should_test_half_open`: increments the half-open test
counter and forwards the request exactly when the incremented counter is a
multiple of `int(1 / half_open_test_percentage)`. -/
def shouldTestHalfOpen (b : CircuitBreaker) : Bool × CircuitBreaker :=
  if b.state ≠ .halfOpen then (false, b)
  else
    let b' := { b with halfOpenTestCount := b.halfOpenTestCount + 1 }
    (decide ((b'.halfOpenTestCount : ℤ) % halfOpenDivisor b = 0), b')

/-- `CircuitBreaker._record_result`: in HALF_OPEN the result feeds the
half-open counters and, once at least five probes have resolved, decides
the HALF_OPEN→CLOSED / HALF_OPEN→OPEN transition; in every other state the
result is appended to `request_history`. -/
def recordResult (now : ℤ) (success : Bool) (b : CircuitBreaker) : CircuitBreaker :=
  if b.state = .halfOpen then
    let s := b.halfOpenSuccessCount + (if success then 1 else 0)
    let f := b.halfOpenFailureCount + (if success then 0 else 1)
    if 5 ≤ s + f then
      if 3 ≤ s then
        { b with state := .closed, openedAt := none,
                 halfOpenSuccessCount := s, halfOpenFailureCount := f }
      else
        { b with state := .opened, openedAt := some now,
                 halfOpenSuccessCount := s, halfOpenFailureCount := f }
    else
      { b with halfOpenSuccessCount := s, halfOpenFailureCount := f }
  else
    { b with requestHistory := b.requestHistory ++ [(now, success)] }

/-- Outcome of the wrapped function, had it been invoked: it either returns
normally or raises. -/
inductive FuncOutcome where
  | ok
  | exn
deriving DecidableEq, Repr

/-- Observable outcome of one `CircuitBreaker.call` / `call_async`:
`CircuitBreakerOpenError` raised without invoking the function, or the
function's own result / exception propagated. -/
inductive CallOutcome where
  | openError
  | funcOk
  | funcExn
deriving DecidableEq, Repr

/-- Result of one `call`: the outcome, whether the wrapped function was
invoked, and the breaker state afterwards. -/
structure CallResult where
  outcome : CallOutcome
  invoked : Bool
  breaker : CircuitBreaker
deriving DecidableEq, Repr

/-- The `try: result = func(...)` block of `call`: invoke the function and
record success or failure (re-raising the function's exception). -/
def runFunc (now : ℤ) (fo : FuncOutcome) (b : CircuitBreaker) : CallResult :=
  match fo with
  | .ok => ⟨.funcOk, true, recordResult now true b⟩
  | .exn => ⟨.funcExn, true, recordResult now false b⟩

/-- `CircuitBreaker.call` (the async variant `call_async` is identical):
read the state once (applying the lazy transitions of `_update_state`);
OPEN → raise `CircuitBreakerOpenError`; HALF_OPEN and not selected by
`_should_test_half_open` → raise `CircuitBreakerOpenError`; otherwise
invoke the wrapped function and record its result. -/
def call (now : ℤ) (fo : FuncOutcome) (b : CircuitBreaker) : CallResult :=
  let b1 := updateState now b
  if b1.state = .opened then ⟨.openError, false, b1⟩
  else if b1.state = .halfOpen then
    let sb := shouldTestHalfOpen b1
    if sb.1 then runFunc now fo sb.2 else ⟨.openError, false, sb.2⟩
  else runFunc now fo b1

/-! ## Rate limiter (rate_limit.py) -/

/-- Result triple of `RateLimitMiddleware._check_rate_limit`:
`(allowed, remaining, reset_time)`. -/
structure RLResult where
  allowed : Bool
  remaining : ℤ
  resetTime : ℤ
deriving DecidableEq, Repr

/-- `redis_client.zadd(key, {str(now): now})` on the sliding set for one
rate-limit key: member names are the stringified timestamps, so adding an
already-present timestamp leaves the cardinality unchanged. -/
def zadd (now : ℤ) (s : List ℤ) : List ℤ :=
  if now ∈ s then s else now :: s

/-- `redis_client.zremrangebyscore(key, 0, window_start)`: remove every
member whose score lies in the inclusive range `[0, window_start]`. -/
def zremrangebyscore (lo hi : ℤ) (s : List ℤ) : List ℤ :=
  s.filter (fun x => ¬(lo ≤ x ∧ x ≤ hi))

/-- The healthy-store body of `_check_rate_limit` for one key: add the
current timestamp, prune scores in `[0, now - window]`, count, and return
`(count < limit, max 0 (limit - count), now + window)` together with the
new sliding set. -/
def checkRateLimitStep (limit window now : ℤ) (s : List ℤ) :
    RLResult × List ℤ :=
  let s1 := zadd now s
  let s2 := zremrangebyscore 0 (now - window) s1
  let count : ℤ := s2.length
  (⟨decide (count < limit), max 0 (limit - count), now + window⟩, s2)

/-- `RateLimitMiddleware._check_rate_limit`: if the Redis client was never
initialized, or any store operation raises, fail open with
`(True, limit, now + window)`; otherwise run the sliding-window body. -/
def checkRateLimit (redisInitialized storeFails : Bool)
    (limit window now : ℤ) (s : List ℤ) : RLResult × List ℤ :=
  if !redisInitialized then (⟨true, limit, now + window⟩, s)
  else if storeFails then (⟨true, limit, now + window⟩, s)
  else checkRateLimitStep limit window now s

/-- Run `_check_rate_limit` (healthy store) for a sequence of request
timestamps against a single `(endpoint, identifier)` key, threading the
sliding set, and collect the per-call results. -/
def runRateCalls (limit window : ℤ) : List ℤ → List ℤ → List RLResult
  | [], _ => []
  | t :: ts, s =>
    let rs := checkRateLimitStep limit window t s
    rs.1 :: runRateCalls limit window ts rs.2

/-- One endpoint's `RATE_LIMITS` row for one subject class. -/
structure LimitCfg where
  limit : ℤ
  burst : ℤ
  window : ℤ
deriving DecidableEq, Repr

/-- The `RATE_LIMITS` table (per-endpoint `(ip config, api_key config)`). -/
def rateLimits : List (String × (LimitCfg × LimitCfg)) :=
  [("/search", (⟨100, 150, 60⟩, ⟨1000, 1500, 60⟩)),
   ("/recommend", (⟨50, 75, 60⟩, ⟨500, 750, 60⟩))]

/-- The endpoints exempted at the top of `dispatch`. -/
def skipPaths : List String :=
  ["/health", "/metrics", "/docs", "/openapi.json", "/redoc"]

/-- Path normalization in `dispatch`: `/search*` → `/search`,
`/recommend*` → `/recommend`, everything else is not rate limited
(`startswith`, expressed on the character lists so it evaluates in the
kernel). -/
def normalizeEndpoint (path : String) : Option String :=
  if "/search".data.isPrefixOf path.data then some "/search"
  else if "/recommend".data.isPrefixOf path.data then some "/recommend"
  else none

/-- Python truthiness of the optional API key (`None` and the empty string
are falsy). -/
def apiKeyTruthy : Option String → Bool
  | none => false
  | some k => k ≠ ""

/-- `identifier = api_key if api_key else client_ip`. -/
def resolvedIdentifier (clientIp : String) (apiKey : Option String) : String :=
  if apiKeyTruthy apiKey then apiKey.getD "" else clientIp

/-- `client_ip in lst or (api_key and api_key in lst)`: how `dispatch`
matches a request against the whitelist / blacklist. -/
def inIdentifierList (clientIp : String) (apiKey : Option String)
    (lst : List String) : Bool :=
  clientIp ∈ lst || (apiKeyTruthy apiKey && apiKey.getD "" ∈ lst)

/-- Observable decision of `RateLimitMiddleware.dispatch`. -/
inductive Decision where
  /-- The request is passed to `call_next` without rate-limit headers
  (skip list, unknown endpoint, or whitelisted). -/
  | passthrough
  /-- 403 response for a blacklisted identifier. -/
  | forbidden
  /-- 429 response carrying the rate-limit result. -/
  | limited (r : RLResult)
  /-- The request is passed to `call_next` and the response carries the
  rate-limit headers. -/
  | allowed (r : RLResult)
deriving DecidableEq, Repr

/-- `RateLimitMiddleware.dispatch`, abstracted over the store-backed
sliding-window check (`check identifier limit window endpoint`): skip
exempt paths and unknown endpoints; reject blacklisted requests with 403
before consulting the whitelist or the store; pass whitelisted requests
through unconditionally; otherwise resolve the subject class, run the
sliding-window check and produce a 429 or an allowed response. -/
def dispatch (wl bl : List String) (path clientIp : String)
    (apiKey : Option String)
    (check : String → ℤ → ℤ → String → RLResult) : Decision :=
  if path ∈ skipPaths then .passthrough
  else
    match normalizeEndpoint path with
    | none => .passthrough
    | some endpoint =>
      if inIdentifierList clientIp apiKey bl then .forbidden
      else if inIdentifierList clientIp apiKey wl then .passthrough
      else
        match rateLimits.lookup endpoint with
        | none => .passthrough
        | some cfgs =>
          let useKey := apiKeyTruthy apiKey
          let identifier := resolvedIdentifier clientIp apiKey
          let cfg := if useKey then cfgs.2 else cfgs.1
          let r := check identifier cfg.limit cfg.window endpoint
          if !r.allowed then .limited r else .allowed r

/-! ## Cache client (cache.py) and the JSON codec fragment

`CacheClient.set` serializes with `json.dumps` (strings pass through
unmodified) and `CacheClient.get` deserializes with `json.loads`, falling
back to the raw string on `JSONDecodeError`.  The codec is modelled on the
fragment of JSON values the claims need: `null`, booleans, integers and
strings (no floats, arrays or objects; string escapes limited to `\"` and
`\\`).  The parser follows the JSON grammar for that fragment: optional
surrounding whitespace, integers `-?(0|[1-9][0-9]*)`, the literals `null`,
`true`, `false`, and double-quoted strings. -/

/-- JSON-like values (the fragment used by the cache codec model). -/
inductive JVal where
  | vnull
  | vbool (b : Bool)
  | vint (n : ℤ)
  | vstr (s : String)
deriving DecidableEq, Repr

/-- Decimal digit characters. -/
def isDigitC (c : Char) : Bool := '0' ≤ c && c ≤ '9'

/-- Numeric value of a digit character. -/
def digitToNat (c : Char) : ℕ := c.toNat - '0'.toNat

/-- Big-endian digit list to natural number. -/
def digitsToNat (l : List Char) : ℕ :=
  l.foldl (fun a c => 10 * a + digitToNat c) 0

/-- Little-endian decimal digits of `n` (with explicit fuel, so the
definition is structural and evaluates by `decide`). -/
def natToDigitsRevFuel : ℕ → ℕ → List Char
  | 0, _ => []
  | fuel + 1, n =>
    if n = 0 then []
    else Nat.digitChar (n % 10) :: natToDigitsRevFuel fuel (n / 10)

/-- Big-endian decimal representation of `n`, as produced by `str(n)` /
`json.dumps(n)` for a nonnegative integer. -/
def natToDigits (n : ℕ) : List Char :=
  if n = 0 then ['0'] else (natToDigitsRevFuel n n).reverse

/-- Whitespace characters `json.loads` skips around a document. -/
def isWsC (c : Char) : Bool := c = ' ' || c = '\t' || c = '\n' || c = '\r'

/-- Strip trailing whitespace. -/
def dropTrailingWs (l : List Char) : List Char :=
  (l.reverse.dropWhile isWsC).reverse

/-- Strip the whitespace `json.loads` tolerates around a document. -/
def trimWs (l : List Char) : List Char :=
  dropTrailingWs (l.dropWhile isWsC)

/-- Parse a JSON natural-number literal: `0`, or a nonzero digit followed
by digits (JSON rejects redundant leading zeros). -/
def parseJsonNat (l : List Char) : Option ℕ :=
  match l with
  | [] => none
  | c :: rest =>
    if c = '0' then (if rest = [] then some 0 else none)
    else if isDigitC c && rest.all isDigitC then some (digitsToNat (c :: rest))
    else none

/-- Parse a JSON integer literal (optional leading minus sign). -/
def parseJsonInt (l : List Char) : Option ℤ :=
  if l.head? = some '-' then (parseJsonNat l.tail).map (fun n => -(n : ℤ))
  else (parseJsonNat l).map (fun n => (n : ℤ))

/-- Undo the string escapes of the fragment (`\"` and `\\`); any other
escape, or an unescaped quote, is rejected. -/
def unescapeJson : List Char → Option (List Char)
  | [] => some []
  | '\\' :: c :: rest =>
    if c = '"' ∨ c = '\\' then (unescapeJson rest).map (c :: ·) else none
  | ['\\'] => none
  | '"' :: _ => none
  | c :: rest => (unescapeJson rest).map (c :: ·)

/-- Parse a double-quoted JSON string literal. -/
def parseJsonString (t : List Char) : Option JVal :=
  match t with
  | '"' :: rest =>
    if rest.getLast? = some '"' then
      (unescapeJson rest.dropLast).map (fun cs => .vstr ⟨cs⟩)
    else none
  | _ => none

/-- Parse a whitespace-trimmed JSON document of the fragment. -/
def parseJsonChars (t : List Char) : Option JVal :=
  if t = "null".data then some .vnull
  else if t = "true".data then some (.vbool true)
  else if t = "false".data then some (.vbool false)
  else if t.head? = some '"' then parseJsonString t
  else (parseJsonInt t).map .vint

/-- `json.loads`, restricted to the fragment. -/
def jsonLoads (s : String) : Option JVal :=
  parseJsonChars (trimWs s.data)

/-- Escape a character for a JSON string literal (fragment: quote and
backslash). -/
def escapeJsonChar (c : Char) : List Char :=
  if c = '"' ∨ c = '\\' then ['\\', c] else [c]

/-- `json.dumps`, restricted to the fragment. -/
def jsonDumps : JVal → String
  | .vnull => "null"
  | .vbool true => "true"
  | .vbool false => "false"
  | .vint n =>
    ⟨if n < 0 then '-' :: natToDigits n.natAbs else natToDigits n.toNat⟩
  | .vstr s => ⟨'"' :: (s.data.map escapeJsonChar).flatten ++ ['"']⟩

/-- The serialization step of `CacheClient.set`: strings pass through
unmodified, every other value is `json.dumps`-encoded. -/
def serializeValue : JVal → String
  | .vstr s => s
  | v => jsonDumps v

/-- The deserialization step of `CacheClient.get`: `json.loads`, falling
back to the raw string when decoding fails. -/
def decodeValue (raw : String) : JVal :=
  (jsonLoads raw).getD (.vstr raw)

/-- The exception classes distinguished by the `except` clauses of
`CacheClient`: `CircuitBreakerOpenError`, the `RedisError` hierarchy, and
any other exception. -/
inductive PyExc where
  | circuitBreakerOpen
  | redisError
  | otherExc
deriving DecidableEq, Repr

/-- Characters that can start a JSON document accepted by Python's
`json.loads` (digits, sign, the literal starts `t`/`f`/`n` plus the
non-standard `NaN`/`Infinity`, strings, arrays, objects). -/
def canStartJson (c : Char) : Bool :=
  isDigitC c || c ∈ ['-', '"', '[', '{', 't', 'f', 'n', 'N', 'I']

/-- A sound syntactic guarantee that `json.loads` fails on `s`: after
leading whitespace, the first character cannot start any JSON document
(or the string is whitespace only). -/
def definitelyNotJson (s : String) : Bool :=
  match s.data.dropWhile isWsC with
  | [] => true
  | c :: _ => !canStartJson c

/-- `CacheClient.get`, abstracted over the store interaction: the store
may be uninitialized, the breaker pre-check may see an OPEN breaker, the
breaker-wrapped `GET` may raise (`storeFail`), report a miss, or return
the stored raw string, which is then decoded with raw-string fallback.
Every failure path returns `None`; the function never raises
(`Except.error` never occurs). -/
def cacheGet (redisInitialized breakerOpen : Bool) (storeFail : Option PyExc)
    (store : List (String × String)) (key : String) :
    Except PyExc (Option JVal) :=
  if !redisInitialized then .ok none
  else if breakerOpen then .ok none
  else
    match storeFail with
    | some _ => .ok none
    | none =>
      match store.lookup key with
      | none => .ok none
      | some raw => .ok (some (decodeValue raw))

/-- `CacheClient.set`, abstracted the same way; returns the success flag
and the store contents afterwards.  The `ttl` is handed to `setex` but
expiry is owned by the external store, so it does not appear in the
modelled store state.  Every failure path returns `False` without
raising. -/
def cacheSet (redisInitialized breakerOpen : Bool) (storeFail : Option PyExc)
    (store : List (String × String)) (key : String) (v : JVal) (ttl : ℤ) :
    Except PyExc Bool × List (String × String) :=
  if !redisInitialized then (.ok false, store)
  else if breakerOpen then (.ok false, store)
  else
    match storeFail, ttl with
    | some _, _ => (.ok false, store)
    | none, _ => (.ok true, (key, serializeValue v) :: store)

/-- `CacheClient.delete`: scan the matching keys and delete each; any
failure path returns a count of `0` without raising. -/
def cacheDelete (redisInitialized breakerOpen : Bool)
    (storeFail : Option PyExc) (store : List (String × String))
    (patternMatches : String → Bool) :
    Except PyExc ℕ × List (String × String) :=
  if !redisInitialized then (.ok 0, store)
  else if breakerOpen then (.ok 0, store)
  else
    match storeFail with
    | some _ => (.ok 0, store)
    | none =>
      (.ok ((store.map (·.1)).filter patternMatches).length,
       store.filter (fun p => !patternMatches p.1))

/-- `CacheClient.exists`: returns `False` when the store is uninitialized;
the `except` clause catches only `CircuitBreakerOpenError` and
`RedisError`, so any other exception raised by the store call propagates
(`Except.error`). -/
def cacheExists (redisInitialized : Bool) (storeFail : Option PyExc)
    (store : List (String × String)) (key : String) : Except PyExc Bool :=
  if !redisInitialized then .ok false
  else
    match storeFail with
    | some .circuitBreakerOpen => .ok false
    | some .redisError => .ok false
    | some .otherExc => .error .otherExc
    | none => .ok (store.lookup key).isSome

/-! ## Derived iteration helpers and concrete instances -/

/-- Record a sequence of `(timestamp, success)` results through
`_record_result`. -/
def recordAll : List (ℤ × Bool) → CircuitBreaker → CircuitBreaker
  | [], b => b
  | (t, s) :: rest, b => recordAll rest (recordResult t s b)

/-- Iterate `call` over a list of `(timestamp, function outcome)` pairs,
keeping the final breaker. -/
def iterCall : List (ℤ × FuncOutcome) → CircuitBreaker → CircuitBreaker
  | [], b => b
  | (t, fo) :: rest, b => iterCall rest (call t fo b).breaker

/-- The per-call `invoked` flags of a run of `call`s. -/
def invokedFlags : List (ℤ × FuncOutcome) → CircuitBreaker → List Bool
  | [], _ => []
  | (t, fo) :: rest, b =>
    (call t fo b).invoked :: invokedFlags rest (call t fo b).breaker

/-- A freshly closed breaker (all defaults) holding ten results with six
failures inside the window, used as a concrete witness input. -/
def cbClosedTen : CircuitBreaker :=
  { state := .closed,
    requestHistory :=
      [(41, false), (42, false), (43, false), (44, false), (45, false),
       (46, false), (47, true), (48, true), (49, true), (50, true)] }

/-- A breaker opened at time 0 (defaults otherwise), used as a concrete
witness input. -/
def cbOpenAtZero : CircuitBreaker :=
  { state := .opened, openedAt := some 0 }

/-- A freshly half-open breaker (all counters zero, defaults otherwise),
used as a concrete witness and counterexample input. -/
def cbHalfOpenFresh : CircuitBreaker :=
  { state := .halfOpen }

/-- Ten successful calls at seconds 0..9, a concrete half-open run. -/
def halfOpenRunTen : List (ℤ × FuncOutcome) :=
  [(0, .ok), (1, .ok), (2, .ok), (3, .ok), (4, .ok),
   (5, .ok), (6, .ok), (7, .ok), (8, .ok), (9, .ok)]

/-! ## Structural lemmas about `updateState`, `recordResult` and `call` -/

/-- In HALF_OPEN, `_update_state` only prunes the history. -/
theorem updateState_halfOpen (now : ℤ) (b : CircuitBreaker)
    (hb : b.state = .halfOpen) :
    updateState now b =
      { b with requestHistory :=
          pruneHistory now b.timeWindowSeconds b.requestHistory } := by
  simp [updateState, hb]

/-- C2: starting from CLOSED, `_update_state` (after pruning
`request_history` to the time window) moves the breaker to OPEN exactly
when the pruned history holds at least `min_requests_for_threshold`
entries and its failure fraction is at least `failure_threshold`; the
transition sets `opened_at = now`, and in particular the breaker never
opens while either condition fails. -/
theorem closed_to_open_iff_threshold (now : ℤ) (b : CircuitBreaker)
    (hb : b.state = .closed) :
    ((updateState now b).state = .opened ↔
      b.minRequestsForThreshold ≤
          (pruneHistory now b.timeWindowSeconds b.requestHistory).length ∧
        b.failureThreshold ≤
          historyErrorRate (pruneHistory now b.timeWindowSeconds b.requestHistory)) ∧
    ((updateState now b).state = .opened →
      (updateState now b).openedAt = some now) := by
  simp only [updateState, hb]
  split
  · simp_all
  · simp_all

/-- C2 witness: a default breaker holding ten in-window results with six
failures opens at time 50 (10 ≥ 10 and 6/10 ≥ 1/2). -/
theorem closed_to_open_iff_threshold_witness :
    cbClosedTen.state = .closed ∧
      ((updateState 50 cbClosedTen).state = .opened ↔
        cbClosedTen.minRequestsForThreshold ≤
            (pruneHistory 50 cbClosedTen.timeWindowSeconds
              cbClosedTen.requestHistory).length ∧
          cbClosedTen.failureThreshold ≤
            historyErrorRate (pruneHistory 50 cbClosedTen.timeWindowSeconds
              cbClosedTen.requestHistory)) :=
  ⟨by decide, (closed_to_open_iff_threshold 50 cbClosedTen (by decide)).1⟩

/-- In OPEN, before `open_duration_seconds` have elapsed, `_update_state`
only prunes the history. -/
theorem updateState_opened_before (now t : ℤ) (b : CircuitBreaker)
    (hb : b.state = .opened) (ht : b.openedAt = some t)
    (hlt : now - t < b.openDurationSeconds) :
    updateState now b =
      { b with requestHistory :=
          pruneHistory now b.timeWindowSeconds b.requestHistory } := by
  simp only [updateState, hb, ht]
  rw [if_neg (by omega)]

/-- In OPEN, once `open_duration_seconds` have elapsed, `_update_state`
moves to HALF_OPEN and zeroes the three half-open counters. -/
theorem updateState_opened_after (now t : ℤ) (b : CircuitBreaker)
    (hb : b.state = .opened) (ht : b.openedAt = some t)
    (hge : b.openDurationSeconds ≤ now - t) :
    updateState now b =
      { b with
          requestHistory := pruneHistory now b.timeWindowSeconds b.requestHistory,
          state := .halfOpen,
          halfOpenTestCount := 0,
          halfOpenSuccessCount := 0,
          halfOpenFailureCount := 0 } := by
  simp only [updateState, hb, ht]
  rw [if_pos (by omega)]

/-- C3: while the breaker is OPEN and less than `open_duration_seconds`
have elapsed since `opened_at`, every `call`/`call_async` raises
`CircuitBreakerOpenError` without invoking the wrapped function and the
breaker stays OPEN; the first state read at or after the deadline moves
the breaker to HALF_OPEN with all three half-open counters reset to zero,
and every later state read leaves it HALF_OPEN (the transition happens
exactly once). -/
theorem open_rejects_then_half_opens (b : CircuitBreaker) (now t : ℤ)
    (fo : FuncOutcome) (hb : b.state = .opened) (ht : b.openedAt = some t) :
    (now - t < b.openDurationSeconds →
      (call now fo b).outcome = .openError ∧
        (call now fo b).invoked = false ∧
        (call now fo b).breaker.state = .opened) ∧
    (b.openDurationSeconds ≤ now - t →
      (updateState now b).state = .halfOpen ∧
        (updateState now b).halfOpenTestCount = 0 ∧
        (updateState now b).halfOpenSuccessCount = 0 ∧
        (updateState now b).halfOpenFailureCount = 0 ∧
        ∀ now2 : ℤ, (updateState now2 (updateState now b)).state = .halfOpen) := by
  constructor
  · intro hlt
    have h1 := updateState_opened_before now t b hb ht hlt
    simp [call, h1, hb]
  · intro hge
    rw [updateState_opened_after now t b hb ht hge]
    refine ⟨rfl, rfl, rfl, rfl, fun now2 => ?_⟩
    rw [updateState_halfOpen now2 _ rfl]

/-- C3 witness: a breaker opened at time 0 rejects a call at time 29
without invoking the function, and the state read at time 30 flips it to
HALF_OPEN with zeroed counters, idempotently. -/
theorem open_rejects_then_half_opens_witness :
    cbOpenAtZero.state = .opened ∧ cbOpenAtZero.openedAt = some 0 ∧
    ((29 : ℤ) - 0 < cbOpenAtZero.openDurationSeconds →
      (call 29 .ok cbOpenAtZero).outcome = .openError ∧
        (call 29 .ok cbOpenAtZero).invoked = false ∧
        (call 29 .ok cbOpenAtZero).breaker.state = .opened) ∧
    (cbOpenAtZero.openDurationSeconds ≤ (30 : ℤ) - 0 →
      (updateState 30 cbOpenAtZero).state = .halfOpen ∧
        (updateState 30 cbOpenAtZero).halfOpenTestCount = 0 ∧
        (updateState 30 cbOpenAtZero).halfOpenSuccessCount = 0 ∧
        (updateState 30 cbOpenAtZero).halfOpenFailureCount = 0 ∧
        ∀ now2 : ℤ, (updateState now2 (updateState 30 cbOpenAtZero)).state = .halfOpen) :=
  ⟨by decide, by decide,
    (open_rejects_then_half_opens cbOpenAtZero 29 0 .ok (by decide) (by decide)).1,
    (open_rejects_then_half_opens cbOpenAtZero 30 0 .ok (by decide) (by decide)).2⟩

/-- C10: a result recorded while the breaker is HALF_OPEN never touches
`request_history` (only the half-open counters change); a result recorded
in any other state appends exactly one `(timestamp, success)` entry to
`request_history` and leaves the half-open counters, the state and
`opened_at` unchanged. -/
theorem record_result_frame (b : CircuitBreaker) (now : ℤ) (success : Bool) :
    (b.state = .halfOpen →
      (recordResult now success b).requestHistory = b.requestHistory) ∧
    (b.state ≠ .halfOpen →
      (recordResult now success b).requestHistory
          = b.requestHistory ++ [(now, success)] ∧
        (recordResult now success b).halfOpenTestCount = b.halfOpenTestCount ∧
        (recordResult now success b).halfOpenSuccessCount = b.halfOpenSuccessCount ∧
        (recordResult now success b).halfOpenFailureCount = b.halfOpenFailureCount ∧
        (recordResult now success b).state = b.state ∧
        (recordResult now success b).openedAt = b.openedAt) := by
  constructor
  · intro hb
    unfold recordResult
    rw [if_pos hb]
    dsimp only
    repeat' split
    all_goals rfl
  · intro hb
    unfold recordResult
    rw [if_neg hb]
    simp

/-- C10 witness: at a half-open breaker the history is untouched, and at a
closed breaker one entry is appended with counters unchanged. -/
theorem record_result_frame_witness :
    ((recordResult 7 true cbHalfOpenFresh).requestHistory
        = cbHalfOpenFresh.requestHistory) ∧
    ((recordResult 7 true cbClosedTen).requestHistory
        = cbClosedTen.requestHistory ++ [(7, true)] ∧
      (recordResult 7 true cbClosedTen).halfOpenTestCount
        = cbClosedTen.halfOpenTestCount ∧
      (recordResult 7 true cbClosedTen).halfOpenSuccessCount
        = cbClosedTen.halfOpenSuccessCount ∧
      (recordResult 7 true cbClosedTen).halfOpenFailureCount
        = cbClosedTen.halfOpenFailureCount ∧
      (recordResult 7 true cbClosedTen).state = cbClosedTen.state ∧
      (recordResult 7 true cbClosedTen).openedAt = cbClosedTen.openedAt) :=
  ⟨(record_result_frame cbHalfOpenFresh 7 true).1 (by decide),
    (record_result_frame cbClosedTen 7 true).2 (by decide)⟩

/-- `recordAll` over an appended list runs the two parts in sequence. -/
theorem recordAll_append (l1 l2 : List (ℤ × Bool)) (b : CircuitBreaker) :
    recordAll (l1 ++ l2) b = recordAll l2 (recordAll l1 b) := by
  induction l1 generalizing b with
  | nil => simp [recordAll]
  | cons p rest ih =>
    obtain ⟨t, s⟩ := p
    simp [recordAll, ih]

/-- One half-open `_record_result` step below the five-probe bar just
bumps the success/failure counters. -/
theorem recordResult_halfOpen_small (t : ℤ) (s : Bool) (b : CircuitBreaker)
    (hb : b.state = .halfOpen)
    (hlt : b.halfOpenSuccessCount + b.halfOpenFailureCount + 1 < 5) :
    recordResult t s b =
      { b with
          halfOpenSuccessCount := b.halfOpenSuccessCount + (if s then 1 else 0),
          halfOpenFailureCount := b.halfOpenFailureCount + (if s then 0 else 1) } := by
  unfold recordResult
  rw [if_pos hb]
  dsimp only
  rw [if_neg (by cases s <;> simp <;> omega)]

/-- Recording at most four results on a freshly half-open breaker keeps it
HALF_OPEN and makes the counters the success/failure counts so far. -/
theorem recordAll_halfOpen_stay (l : List (ℤ × Bool)) (b : CircuitBreaker)
    (hb : b.state = .halfOpen)
    (hlen : b.halfOpenSuccessCount + b.halfOpenFailureCount + l.length ≤ 4) :
    (recordAll l b).state = .halfOpen ∧
      (recordAll l b).halfOpenSuccessCount
          = b.halfOpenSuccessCount + l.countP (fun q => q.2) ∧
      (recordAll l b).halfOpenFailureCount
          = b.halfOpenFailureCount + l.countP (fun q => !q.2) := by
  induction l generalizing b with
  | nil => simp [recordAll, hb]
  | cons p rest ih =>
    obtain ⟨t, s⟩ := p
    have hstep := recordResult_halfOpen_small t s b hb (by simp at hlen; omega)
    have hb' : (recordResult t s b).state = .halfOpen := by rw [hstep]; exact hb
    have e1 : (recordResult t s b).halfOpenSuccessCount
        = b.halfOpenSuccessCount + (if s then 1 else 0) := by rw [hstep]
    have e2 : (recordResult t s b).halfOpenFailureCount
        = b.halfOpenFailureCount + (if s then 0 else 1) := by rw [hstep]
    have hlen' : (recordResult t s b).halfOpenSuccessCount +
        (recordResult t s b).halfOpenFailureCount + rest.length ≤ 4 := by
      rw [e1, e2]
      simp at hlen
      cases s <;> simp <;> omega
    have hrest := ih (recordResult t s b) hb' hlen'
    have hra : recordAll ((t, s) :: rest) b = recordAll rest (recordResult t s b) := rfl
    refine ⟨by rw [hra]; exact hrest.1, ?_, ?_⟩
    · rw [hra, hrest.2.1, e1, List.countP_cons]
      cases s <;> (simp; try omega)
    · rw [hra, hrest.2.2, e2, List.countP_cons]
      cases s <;> (simp; try omega)

/-- C4: starting from a freshly half-open breaker (both probe counters
zero), after exactly five recorded probe results the breaker is CLOSED if
and only if at least three of the five succeeded (then `opened_at` is
cleared); with fewer than three successes it is OPEN with `opened_at` set
to the fifth probe's timestamp; and after any proper prefix of fewer than
five results it is still HALF_OPEN (no early transition). -/
theorem half_open_decides_after_five_probes (b : CircuitBreaker)
    (hb : b.state = .halfOpen) (hs0 : b.halfOpenSuccessCount = 0)
    (hf0 : b.halfOpenFailureCount = 0) (p1 p2 p3 p4 p5 : ℤ × Bool) :
    ((recordAll [p1, p2, p3, p4, p5] b).state = .closed ↔
      3 ≤ ([p1, p2, p3, p4, p5].countP (fun q => q.2))) ∧
    (3 ≤ ([p1, p2, p3, p4, p5].countP (fun q => q.2)) →
      (recordAll [p1, p2, p3, p4, p5] b).openedAt = none) ∧
    (([p1, p2, p3, p4, p5].countP (fun q => q.2)) < 3 →
      (recordAll [p1, p2, p3, p4, p5] b).state = .opened ∧
        (recordAll [p1, p2, p3, p4, p5] b).openedAt = some p5.1) ∧
    (∀ k, k < 5 →
      (recordAll ([p1, p2, p3, p4, p5].take k) b).state = .halfOpen) := by
  obtain ⟨t5, s5⟩ := p5
  have h4 := recordAll_halfOpen_stay [p1, p2, p3, p4] b hb
    (by simp [hs0, hf0])
  have hsplit : recordAll [p1, p2, p3, p4, (t5, s5)] b
      = recordResult t5 s5 (recordAll [p1, p2, p3, p4] b) := by
    rw [show [p1, p2, p3, p4, (t5, s5)] = [p1, p2, p3, p4] ++ [(t5, s5)] from rfl,
      recordAll_append]
    rfl
  set b4 := recordAll [p1, p2, p3, p4] b with hb4
  have hsum : b4.halfOpenSuccessCount + b4.halfOpenFailureCount = 4 := by
    have hlen := List.length_eq_countP_add_countP (fun q : ℤ × Bool => q.2)
      (l := [p1, p2, p3, p4])
    simp at hlen
    rw [h4.2.1, h4.2.2, hs0, hf0]
    omega
  have hcount : [p1, p2, p3, p4, (t5, s5)].countP (fun q => q.2)
      = b4.halfOpenSuccessCount + (if s5 then 1 else 0) := by
    rw [show [p1, p2, p3, p4, (t5, s5)] = [p1, p2, p3, p4] ++ [(t5, s5)] from rfl,
      List.countP_append]
    simp [h4.2.1, hs0]
    cases s5 <;> simp
  have hfinal : recordResult t5 s5 b4 =
      (if 3 ≤ b4.halfOpenSuccessCount + (if s5 then 1 else 0) then
        { b4 with
            state := .closed, openedAt := none,
            halfOpenSuccessCount := b4.halfOpenSuccessCount + (if s5 then 1 else 0),
            halfOpenFailureCount := b4.halfOpenFailureCount + (if s5 then 0 else 1) }
      else
        { b4 with
            state := .opened, openedAt := some t5,
            halfOpenSuccessCount := b4.halfOpenSuccessCount + (if s5 then 1 else 0),
            halfOpenFailureCount := b4.halfOpenFailureCount + (if s5 then 0 else 1) }) := by
    unfold recordResult
    rw [if_pos h4.1]
    dsimp only
    rw [if_pos (by cases s5 <;> simp <;> omega)]
  refine ⟨?_, ?_, ?_, ?_⟩
  · rw [hsplit, hfinal, hcount]
    by_cases h3 : 3 ≤ b4.halfOpenSuccessCount + (if s5 then 1 else 0)
    · rw [if_pos h3]
      simp [h3]
    · rw [if_neg h3]
      simp [h3]
  · intro h3
    rw [hcount] at h3
    rw [hsplit, hfinal, if_pos h3]
  · intro h3
    rw [hcount] at h3
    rw [hsplit, hfinal, if_neg (by omega)]
    exact ⟨rfl, rfl⟩
  · intro k hk
    have hst : ∀ m : List (ℤ × Bool), m.length ≤ 4 →
        (recordAll m b).state = .halfOpen := fun m hm =>
      (recordAll_halfOpen_stay m b hb (by omega)).1
    interval_cases k <;> (apply hst; simp)

/-- C4 witness: five probes with three successes close a freshly half-open
breaker, and every shorter prefix leaves it HALF_OPEN. -/
theorem half_open_decides_after_five_probes_witness :
    ((recordAll [(1, true), (2, true), (3, false), (4, true), (5, false)]
        cbHalfOpenFresh).state = .closed ↔
      3 ≤ ([((1 : ℤ), true), (2, true), (3, false), (4, true), (5, false)].countP
        (fun q => q.2))) ∧
    (∀ k, k < 5 →
      (recordAll ([((1 : ℤ), true), (2, true), (3, false), (4, true),
        (5, false)].take k) cbHalfOpenFresh).state = .halfOpen) := by
  have h := half_open_decides_after_five_probes cbHalfOpenFresh (by decide)
    (by decide) (by decide) (1, true) (2, true) (3, false) (4, true) (5, false)
  exact ⟨h.1, h.2.2.2⟩

/-- `_record_result` never changes the half-open test counter or the
configured test percentage. -/
theorem recordResult_preserves (now : ℤ) (s : Bool) (b : CircuitBreaker) :
    (recordResult now s b).halfOpenTestCount = b.halfOpenTestCount ∧
      (recordResult now s b).halfOpenTestPercentage = b.halfOpenTestPercentage := by
  refine ⟨?_, ?_⟩ <;> (
    unfold recordResult
    cases s <;> (dsimp only; repeat' split) <;> rfl)

/-- `halfOpenDivisor` depends only on the configured percentage. -/
theorem halfOpenDivisor_congr (b1 b2 : CircuitBreaker)
    (h : b1.halfOpenTestPercentage = b2.halfOpenTestPercentage) :
    halfOpenDivisor b1 = halfOpenDivisor b2 := by
  unfold halfOpenDivisor
  rw [h]

/-- `_should_test_half_open` in HALF_OPEN: bump the counter, forward iff it
became a multiple of the divisor. -/
theorem shouldTestHalfOpen_eq (b : CircuitBreaker) (hb : b.state = .halfOpen) :
    shouldTestHalfOpen b =
      (decide (((b.halfOpenTestCount + 1 : ℕ) : ℤ) % halfOpenDivisor b = 0),
        { b with halfOpenTestCount := b.halfOpenTestCount + 1 }) := by
  unfold shouldTestHalfOpen
  rw [if_neg (by simp [hb])]

/-- One `call` on a half-open breaker: it is forwarded exactly when the
bumped test counter is a multiple of the divisor; either way the test
counter is bumped by one and the percentage is unchanged, and a rejected
call raises `CircuitBreakerOpenError`, leaves the success/failure counters
alone and keeps the breaker HALF_OPEN. -/
theorem call_halfOpen (now : ℤ) (fo : FuncOutcome) (b : CircuitBreaker)
    (hb : b.state = .halfOpen) :
    (call now fo b).invoked
        = decide (((b.halfOpenTestCount + 1 : ℕ) : ℤ) % halfOpenDivisor b = 0) ∧
      (call now fo b).breaker.halfOpenTestCount = b.halfOpenTestCount + 1 ∧
      (call now fo b).breaker.halfOpenTestPercentage = b.halfOpenTestPercentage ∧
      ((call now fo b).invoked = false →
        (call now fo b).outcome = .openError ∧
          (call now fo b).breaker.halfOpenSuccessCount = b.halfOpenSuccessCount ∧
          (call now fo b).breaker.halfOpenFailureCount = b.halfOpenFailureCount ∧
          (call now fo b).breaker.state = .halfOpen) := by
  have hup := updateState_halfOpen now b hb
  have hb1 : (updateState now b).state = .halfOpen := by rw [hup]; exact hb
  have hsb := shouldTestHalfOpen_eq (updateState now b) hb1
  have hdiv : halfOpenDivisor (updateState now b) = halfOpenDivisor b :=
    halfOpenDivisor_congr _ _ (by rw [hup])
  have htc : (updateState now b).halfOpenTestCount = b.halfOpenTestCount := by
    rw [hup]
  have h1 : (shouldTestHalfOpen (updateState now b)).1
      = decide (((b.halfOpenTestCount + 1 : ℕ) : ℤ) % halfOpenDivisor b = 0) := by
    rw [hsb, htc, hdiv]
  have h2tc : (shouldTestHalfOpen (updateState now b)).2.halfOpenTestCount
      = b.halfOpenTestCount + 1 := by
    rw [hsb]
    simp [htc]
  have h2pct : (shouldTestHalfOpen (updateState now b)).2.halfOpenTestPercentage
      = b.halfOpenTestPercentage := by
    rw [hsb]
    simp [hup]
  have h2succ : (shouldTestHalfOpen (updateState now b)).2.halfOpenSuccessCount
      = b.halfOpenSuccessCount := by
    rw [hsb]
    simp [hup]
  have h2fail : (shouldTestHalfOpen (updateState now b)).2.halfOpenFailureCount
      = b.halfOpenFailureCount := by
    rw [hsb]
    simp [hup]
  have h2state : (shouldTestHalfOpen (updateState now b)).2.state = .halfOpen := by
    rw [hsb]
    simp [hb1]
  have hcall : call now fo b =
      (if ((shouldTestHalfOpen (updateState now b)).1 : Bool) then
        runFunc now fo (shouldTestHalfOpen (updateState now b)).2
      else ⟨.openError, false, (shouldTestHalfOpen (updateState now b)).2⟩) := by
    unfold call
    rw [if_neg (by rw [hb1]; simp), if_pos hb1]
  rw [hcall]
  by_cases hmod : ((b.halfOpenTestCount + 1 : ℕ) : ℤ) % halfOpenDivisor b = 0
  · have hd : halfOpenDivisor b ∣ (b.halfOpenTestCount : ℤ) + 1 := by
      apply Int.dvd_of_emod_eq_zero
      push_cast at hmod
      exact hmod
    rw [if_pos (by rw [h1]; exact decide_eq_true hmod)]
    refine ⟨?_, ?_, ?_, fun hinv => ?_⟩
    · cases fo <;> simp [runFunc, hd]
    · cases fo <;>
        simp [runFunc, (recordResult_preserves now _ _).1, h2tc]
    · cases fo <;>
        simp [runFunc, (recordResult_preserves now _ _).2, h2pct]
    · exfalso
      cases fo <;> simp [runFunc] at hinv
  · have hd : ¬ halfOpenDivisor b ∣ (b.halfOpenTestCount : ℤ) + 1 := by
      intro hdvd
      apply hmod
      push_cast
      exact Int.emod_eq_zero_of_dvd hdvd
    rw [if_neg (by rw [h1, decide_eq_true_eq]; exact hmod)]
    exact ⟨(decide_eq_false hmod).symm, by simp [h2tc], by simp [h2pct],
      fun _ => ⟨rfl, by simp [h2succ], by simp [h2fail], by simp [h2state]⟩⟩

/-- Along a run of `call`s that stays HALF_OPEN, the `j`-th call is
forwarded exactly when the test counter value `initial + j + 1` is a
multiple of the divisor. -/
theorem invokedFlags_halfOpen (l : List (ℤ × FuncOutcome)) (b : CircuitBreaker)
    (hst : ∀ i, i ≤ l.length → (iterCall (l.take i) b).state = .halfOpen) :
    ∀ j, j < l.length →
      (invokedFlags l b).getD j false
        = decide (((b.halfOpenTestCount + j + 1 : ℕ) : ℤ) % halfOpenDivisor b = 0) := by
  induction l generalizing b with
  | nil => intro j hj; simp at hj
  | cons p rest ih =>
    obtain ⟨t, fo⟩ := p
    have hb : b.state = .halfOpen := by
      have h0 := hst 0 (by simp)
      simpa [iterCall] using h0
    have hc := call_halfOpen t fo b hb
    have hdiv : halfOpenDivisor (call t fo b).breaker = halfOpenDivisor b :=
      halfOpenDivisor_congr _ _ hc.2.2.1
    intro j hj
    match j with
    | 0 =>
      simpa [invokedFlags] using hc.1
    | j + 1 =>
      have hst' : ∀ i, i ≤ rest.length →
          (iterCall (rest.take i) (call t fo b).breaker).state = .halfOpen := by
        intro i hi
        have := hst (i + 1) (by simpa using hi)
        simpa [iterCall, List.take_succ_cons] using this
      have hrec := ih (call t fo b).breaker hst' j (by simpa using hj)
      have harith : (call t fo b).breaker.halfOpenTestCount + j + 1
          = b.halfOpenTestCount + (j + 1) + 1 := by
        rw [hc.2.1]
        omega
      calc (invokedFlags ((t, fo) :: rest) b).getD (j + 1) false
          = (invokedFlags rest (call t fo b).breaker).getD j false := by
            simp [invokedFlags]
        _ = _ := by rw [hrec, harith, hdiv]

/-- Among `j < k`, exactly one satisfies `(c + j + 1) % k = 0`. -/
theorem existsUnique_modular_hit (c k : ℕ) (hk : 0 < k) :
    ∃! j, j < k ∧ (c + j + 1) % k = 0 := by
  have hmodlt : c % k < k := Nat.mod_lt _ hk
  have hdm : k * (c / k) + c % k = c := Nat.div_add_mod c k
  have huniq : ∀ j1 j2, (j1 < k ∧ (c + j1 + 1) % k = 0) →
      (j2 < k ∧ (c + j2 + 1) % k = 0) → j1 = j2 := by
    intro j1 j2 h1 h2
    have d1 : k ∣ (c + j1 + 1) := Nat.dvd_of_mod_eq_zero h1.2
    have d2 : k ∣ (c + j2 + 1) := Nat.dvd_of_mod_eq_zero h2.2
    rcases Nat.le_total j1 j2 with hle | hle
    · have hd : k ∣ (j2 - j1) := by
        have := Nat.dvd_sub' d2 d1
        simpa [Nat.add_sub_add_left, show c + j2 + 1 - (c + j1 + 1) = j2 - j1 by omega]
          using this
      have := Nat.eq_zero_of_dvd_of_lt hd
      omega
    · have hd : k ∣ (j1 - j2) := by
        have := Nat.dvd_sub' d1 d2
        simpa [show c + j1 + 1 - (c + j2 + 1) = j1 - j2 by omega] using this
      have := Nat.eq_zero_of_dvd_of_lt hd
      omega
  refine ⟨k - 1 - c % k, ⟨by omega, ?_⟩, fun y hy => huniq y _ hy ⟨by omega, ?_⟩⟩
  · rw [show c + (k - 1 - c % k) + 1 = k * (c / k) + k by omega,
      show k * (c / k) + k = k * (c / k + 1) by ring]
    exact Nat.mul_mod_right _ _
  · rw [show c + (k - 1 - c % k) + 1 = k * (c / k) + k by omega,
      show k * (c / k) + k = k * (c / k + 1) by ring]
    exact Nat.mul_mod_right _ _

/-- C5 counterexample: the claim says calls rejected while HALF_OPEN leave
the half-open counters (test, success, failure) unchanged, but the first
call on a freshly half-open breaker is rejected with
`CircuitBreakerOpenError` and still increments the half-open test counter
from 0 to 1 (the counter increment is what drives the round-robin
selection). -/
theorem half_open_rejected_call_bumps_test_counter :
    (call 0 .ok cbHalfOpenFresh).outcome = .openError ∧
      (call 0 .ok cbHalfOpenFresh).invoked = false ∧
      (call 0 .ok cbHalfOpenFresh).breaker.halfOpenTestCount
        ≠ cbHalfOpenFresh.halfOpenTestCount := by
  decide

/-- C5 (amended): while the breaker stays HALF_OPEN with divisor
`k = ⌊1 / half_open_test_fraction⌋ > 0`, of any run of `k` consecutive
calls exactly one is forwarded to the wrapped function; each of the others
is rejected immediately with `CircuitBreakerOpenError`, increments the
half-open test counter by one, and leaves the success and failure counters
(and the HALF_OPEN state) unchanged. -/
theorem half_open_admission_one_in_k (b : CircuitBreaker) (k : ℕ)
    (hb : b.state = .halfOpen) (hk : 0 < k)
    (hdiv : halfOpenDivisor b = (k : ℤ)) :
    (∀ (now : ℤ) (fo : FuncOutcome), (b.halfOpenTestCount + 1) % k ≠ 0 →
      (call now fo b).outcome = .openError ∧
        (call now fo b).invoked = false ∧
        (call now fo b).breaker.halfOpenTestCount = b.halfOpenTestCount + 1 ∧
        (call now fo b).breaker.halfOpenSuccessCount = b.halfOpenSuccessCount ∧
        (call now fo b).breaker.halfOpenFailureCount = b.halfOpenFailureCount ∧
        (call now fo b).breaker.state = .halfOpen) ∧
    (∀ l : List (ℤ × FuncOutcome), l.length = k →
      (∀ i, i ≤ l.length → (iterCall (l.take i) b).state = .halfOpen) →
      ∃! j, j < k ∧ (invokedFlags l b).getD j false = true) := by
  constructor
  · intro now fo hmod
    have hmodZ : ¬ ((b.halfOpenTestCount + 1 : ℕ) : ℤ) % halfOpenDivisor b = 0 := by
      rw [hdiv, ← Int.natCast_mod]
      exact_mod_cast hmod
    have hc := call_halfOpen now fo b hb
    have hinv : (call now fo b).invoked = false := by
      rw [hc.1]
      exact decide_eq_false hmodZ
    have hrej := hc.2.2.2 hinv
    exact ⟨hrej.1, hinv, hc.2.1, hrej.2.1, hrej.2.2.1, hrej.2.2.2⟩
  · intro l hlen hst
    have hiff : ∀ j, j < k →
        ((invokedFlags l b).getD j false = true ↔
          (b.halfOpenTestCount + j + 1) % k = 0) := by
      intro j hj
      rw [invokedFlags_halfOpen l b hst j (by omega), hdiv, decide_eq_true_eq]
      constructor
      · intro h
        exact_mod_cast (Int.natCast_mod (b.halfOpenTestCount + j + 1) k) ▸ h
      · intro h
        rw [← Int.natCast_mod]
        exact_mod_cast h
    obtain ⟨j0, hj0, hun⟩ := existsUnique_modular_hit b.halfOpenTestCount k hk
    exact ⟨j0, ⟨hj0.1, (hiff j0 hj0.1).mpr hj0.2⟩,
      fun y hy => hun y ⟨hy.1, (hiff y hy.1).mp hy.2⟩⟩

/-- C5 witness: on a fresh half-open breaker with the default 10 % test
fraction (divisor 10), the call at test count 0 is rejected with all
claimed effects, and the ten-call run `halfOpenRunTen` forwards exactly
one call. -/
theorem half_open_admission_one_in_k_witness :
    ((call 5 .ok cbHalfOpenFresh).outcome = .openError ∧
      (call 5 .ok cbHalfOpenFresh).invoked = false ∧
      (call 5 .ok cbHalfOpenFresh).breaker.halfOpenTestCount
          = cbHalfOpenFresh.halfOpenTestCount + 1 ∧
      (call 5 .ok cbHalfOpenFresh).breaker.halfOpenSuccessCount
          = cbHalfOpenFresh.halfOpenSuccessCount ∧
      (call 5 .ok cbHalfOpenFresh).breaker.halfOpenFailureCount
          = cbHalfOpenFresh.halfOpenFailureCount ∧
      (call 5 .ok cbHalfOpenFresh).breaker.state = .halfOpen) ∧
    (∃! j, j < 10 ∧
      (invokedFlags halfOpenRunTen cbHalfOpenFresh).getD j false = true) :=
  ⟨(half_open_admission_one_in_k cbHalfOpenFresh 10 (by decide) (by decide)
      (by decide)).1 5 .ok (by decide),
    (half_open_admission_one_in_k cbHalfOpenFresh 10 (by decide) (by decide)
      (by decide)).2 halfOpenRunTen (by decide) (by decide)⟩

/-! ## Rate limiter theorems -/

/-- One healthy sliding-window check at time `t` over a set `s` of strictly
earlier, in-window, distinct timestamps: the set becomes `t :: s` and the
result counts `s.length + 1` members. -/
theorem checkRateLimitStep_fresh (limit window t : ℤ) (s : List ℤ)
    (hw : 0 < window) (hmem : t ∉ s) (hin : ∀ x ∈ s, t - x < window) :
    checkRateLimitStep limit window t s
      = (⟨decide ((s.length : ℤ) + 1 < limit),
          max 0 (limit - ((s.length : ℤ) + 1)), t + window⟩, t :: s) := by
  have hzadd : zadd t s = t :: s := by
    unfold zadd
    rw [if_neg hmem]
  have hfilter : zremrangebyscore 0 (t - window) (t :: s) = t :: s := by
    unfold zremrangebyscore
    apply List.filter_eq_self.mpr
    intro x hx
    rcases List.mem_cons.mp hx with hx | hx
    · subst hx
      simp only [decide_eq_true_eq]
      omega
    · have := hin x hx
      simp only [decide_eq_true_eq]
      omega
  have hlen : (((t :: s).length : ℕ) : ℤ) = (s.length : ℤ) + 1 := by
    rw [List.length_cons]
    push_cast
    ring
  unfold checkRateLimitStep
  dsimp only
  rw [hzadd, hfilter, hlen]

/-- Indexed description of a healthy-store run of `_check_rate_limit`
against one key: starting from a set of `s.length` distinct, strictly
earlier, in-window timestamps, the `i`-th call of the run reports a count
of `s.length + i + 1`. -/
theorem runRateCalls_getElem (limit window : ℤ) (hw : 0 < window) :
    ∀ (times : List ℤ) (s : List ℤ) (i : ℕ),
      (∀ x ∈ s, ∀ t ∈ times, x < t) →
      (∀ t ∈ times, ∀ x ∈ s, t - x < window) →
      times.Pairwise (fun a c => a < c ∧ c - a < window) →
      (runRateCalls limit window times s)[i]?
        = (times[i]?).map (fun t =>
            ⟨decide ((s.length : ℤ) + i + 1 < limit),
              max 0 (limit - ((s.length : ℤ) + i + 1)), t + window⟩) := by
  intro times
  induction times with
  | nil =>
    intro s i _ _ _
    simp [runRateCalls]
  | cons t ts ih =>
    intro s i hbef hwin hpair
    obtain ⟨hphead, hptail⟩ := List.pairwise_cons.mp hpair
    have hmem : t ∉ s := fun hmem =>
      absurd (hbef t hmem t (by simp)) (lt_irrefl t)
    have hin : ∀ x ∈ s, t - x < window := fun x hx =>
      hwin t (by simp) x hx
    have hstep := checkRateLimitStep_fresh limit window t s hw hmem hin
    match i with
    | 0 =>
      simp only [runRateCalls, hstep, List.getElem?_cons_zero, Option.map_some']
      norm_num
    | i + 1 =>
      have hbef' : ∀ x ∈ t :: s, ∀ u ∈ ts, x < u := by
        intro x hx u hu
        rcases List.mem_cons.mp hx with hx | hx
        · subst hx
          exact (hphead u hu).1
        · exact hbef x hx u (by simp [hu])
      have hwin' : ∀ u ∈ ts, ∀ x ∈ t :: s, u - x < window := by
        intro u hu x hx
        rcases List.mem_cons.mp hx with hx | hx
        · subst hx
          exact (hphead u hu).2
        · exact hwin u (by simp [hu]) x hx
      have hrec := ih (t :: s) i hbef' hwin' hptail
      have harith : ((t :: s).length : ℤ) + (i : ℕ) + 1
          = (s.length : ℤ) + ((i + 1 : ℕ) : ℤ) + 1 := by
        rw [List.length_cons]
        push_cast
        ring
      calc (runRateCalls limit window (t :: ts) s)[i + 1]?
          = (runRateCalls limit window ts (t :: s))[i]? := by
            simp [runRateCalls, hstep]
        _ = _ := by
            rw [hrec]
            simp only [harith, List.getElem?_cons_succ]

/-- C1 counterexample: with `limit = 2` and `window = 60`, two calls at
times 0 and 1 on a fresh key yield `allowed = [true, false]` — the claim
would require the first `limit` = 2 calls to be `[true, true]`.  The
current timestamp is `zadd`-ed before `zcard`, and admission requires
`count < limit`, so call number `limit` is already rejected. -/
theorem rate_limit_rejects_call_number_limit :
    (runRateCalls 2 60 [0, 1] []).map RLResult.allowed = [true, false] ∧
      (runRateCalls 2 60 [0, 1] []).map RLResult.allowed ≠ [true, true] := by
  decide

/-- C1 (amended): for a fresh (identifier, endpoint) key under a healthy
store, with strictly increasing request timestamps pairwise within
`window` seconds, the `i`-th call (0-based) of
`RateLimitMiddleware._check_rate_limit` returns exactly
`allowed = (i + 1 < limit)`, `remaining = max 0 (limit - (i + 1))` and
`reset_at = tᵢ + window`: calls 1 through `limit - 1` are allowed and
every call from number `limit` on is rejected (the claim's `limit`-th
allowed call does not happen, because the current timestamp is added to
the sliding set before counting and admission requires `count < limit`). -/
theorem rate_limit_fresh_key_run (limit window : ℤ) (times : List ℤ)
    (hw : 0 < window)
    (hpair : times.Pairwise (fun a c => a < c ∧ c - a < window)) (i : ℕ) :
    (runRateCalls limit window times [])[i]?
      = (times[i]?).map (fun t =>
          ⟨decide ((i : ℤ) + 1 < limit), max 0 (limit - ((i : ℤ) + 1)),
            t + window⟩) := by
  have h := runRateCalls_getElem limit window hw times [] i
    (by simp) (by simp) hpair
  simpa using h

/-- C1 witness: with `limit = 2`, `window = 60` and times `[0, 1]`, the
second call (index 1) is already rejected with `remaining = 0` and
`reset_at = 61`. -/
theorem rate_limit_fresh_key_run_witness :
    (runRateCalls 2 60 [0, 1] [])[1]?
      = ((([0, 1] : List ℤ))[1]?).map (fun t =>
          ⟨decide (((1 : ℕ) : ℤ) + 1 < 2), max 0 (2 - (((1 : ℕ) : ℤ) + 1)),
            t + 60⟩) :=
  rate_limit_fresh_key_run 2 60 [0, 1] (by decide) (by decide) 1

/-- C8: if the Redis client was never initialized, or any store operation
during the sliding-window check raises, `_check_rate_limit` fails open and
returns exactly `(allowed = true, remaining = limit,
reset_at = now + window)`, leaving the stored set untouched — a store
failure never blocks the request. -/
theorem rate_limit_fails_open :
    (∀ (storeFails : Bool) (limit window now : ℤ) (s : List ℤ),
      checkRateLimit false storeFails limit window now s
        = (⟨true, limit, now + window⟩, s)) ∧
    (∀ (limit window now : ℤ) (s : List ℤ),
      checkRateLimit true true limit window now s
        = (⟨true, limit, now + window⟩, s)) := by
  constructor <;> (intros; rfl)

/-- C9: for a request to a limited endpoint (not on the exempt list, path
normalizing to a known endpoint): a blacklisted request is rejected with
403 before the whitelist is consulted (the result is `forbidden` for every
whitelist) and before any counting or store access (the result does not
depend on the sliding-window check); a whitelisted, non-blacklisted
request is passed through unconditionally, also independently of the
sliding-window check. -/
theorem dispatch_blacklist_then_whitelist (wl bl : List String)
    (path clientIp : String) (apiKey : Option String) (ep : String)
    (check check2 : String → ℤ → ℤ → String → RLResult)
    (hskip : path ∉ skipPaths) (hep : normalizeEndpoint path = some ep) :
    (inIdentifierList clientIp apiKey bl = true →
      dispatch wl bl path clientIp apiKey check = .forbidden) ∧
    (inIdentifierList clientIp apiKey bl = false →
      inIdentifierList clientIp apiKey wl = true →
      dispatch wl bl path clientIp apiKey check = .passthrough) ∧
    ((inIdentifierList clientIp apiKey bl || inIdentifierList clientIp apiKey wl)
        = true →
      dispatch wl bl path clientIp apiKey check
        = dispatch wl bl path clientIp apiKey check2) := by
  refine ⟨?_, ?_, ?_⟩
  · intro hbl
    simp only [dispatch, if_neg hskip, hep]
    simp [hbl]
  · intro hbl hwl
    simp only [dispatch, if_neg hskip, hep]
    simp [hbl, hwl]
  · intro hor
    rcases Bool.or_eq_true_iff.mp hor with hbl | hwl
    · simp only [dispatch, if_neg hskip, hep]
      simp [hbl]
    · simp only [dispatch, if_neg hskip, hep]
      by_cases hbl : inIdentifierList clientIp apiKey bl = true
      · simp [hbl]
      · simp [hbl, hwl]

/-- C9 witness: with IP 1.2.3.4 blacklisted, a /search request from it is
rejected 403 for any whitelist and any store behaviour; with it
whitelisted and not blacklisted, the request passes through. -/
theorem dispatch_blacklist_then_whitelist_witness :
    (dispatch ["1.2.3.4"] ["1.2.3.4"] "/search" "1.2.3.4" none
        (fun _ _ _ _ => ⟨true, 0, 0⟩) = .forbidden) ∧
    (dispatch ["1.2.3.4"] [] "/search" "1.2.3.4" none
        (fun _ _ _ _ => ⟨false, 0, 0⟩) = .passthrough) :=
  ⟨(dispatch_blacklist_then_whitelist ["1.2.3.4"] ["1.2.3.4"] "/search" "1.2.3.4"
      none "/search" (fun _ _ _ _ => ⟨true, 0, 0⟩) (fun _ _ _ _ => ⟨true, 0, 0⟩)
      (by decide) (by decide)).1 (by decide),
    (dispatch_blacklist_then_whitelist ["1.2.3.4"] [] "/search" "1.2.3.4"
      none "/search" (fun _ _ _ _ => ⟨false, 0, 0⟩) (fun _ _ _ _ => ⟨false, 0, 0⟩)
      (by decide) (by decide)).2.1 (by decide) (by decide)⟩

/-! ## Cache client theorems -/

/-- C7 counterexample: the claim says all four operations never raise on
any exception, but `CacheClient.exists` catches only
`CircuitBreakerOpenError` and `RedisError`; a store call raising any other
exception propagates out of `exists` instead of returning `False`. -/
theorem cache_exists_propagates_unexpected_exception :
    cacheExists true (some .otherExc) [] "k" = Except.error PyExc.otherExc ∧
      cacheExists true (some .otherExc) [] "k" ≠ Except.ok false := by
  constructor
  · rfl
  · intro h
    simp [cacheExists] at h

/-- C7 (amended): `CacheClient.get`, `set` and `delete` never raise — for
an uninitialized store, an open breaker, or a store call raising any
exception whatsoever they return their documented fallbacks (`None`,
`False`, `0`); `exists` returns `False` for an uninitialized store and for
store calls raising `CircuitBreakerOpenError` or `RedisError`, but an
exception outside those classes propagates out of `exists`. -/
theorem cache_ops_error_envelope :
    (∀ (ri bo : Bool) (e : PyExc) (store : List (String × String)) (k : String),
      cacheGet ri bo (some e) store k = Except.ok none) ∧
    (∀ (bo : Bool) (sf : Option PyExc) (store : List (String × String))
        (k : String), cacheGet false bo sf store k = Except.ok none) ∧
    (∀ (sf : Option PyExc) (store : List (String × String)) (k : String),
      cacheGet true true sf store k = Except.ok none) ∧
    (∀ (ri bo : Bool) (e : PyExc) (store : List (String × String))
        (k : String) (v : JVal) (ttl : ℤ),
      (cacheSet ri bo (some e) store k v ttl).1 = Except.ok false) ∧
    (∀ (bo : Bool) (sf : Option PyExc) (store : List (String × String))
        (k : String) (v : JVal) (ttl : ℤ),
      (cacheSet false bo sf store k v ttl).1 = Except.ok false) ∧
    (∀ (sf : Option PyExc) (store : List (String × String)) (k : String)
        (v : JVal) (ttl : ℤ),
      (cacheSet true true sf store k v ttl).1 = Except.ok false) ∧
    (∀ (ri bo : Bool) (e : PyExc) (store : List (String × String))
        (pat : String → Bool),
      (cacheDelete ri bo (some e) store pat).1 = Except.ok 0) ∧
    (∀ (bo : Bool) (sf : Option PyExc) (store : List (String × String))
        (pat : String → Bool),
      (cacheDelete false bo sf store pat).1 = Except.ok 0) ∧
    (∀ (sf : Option PyExc) (store : List (String × String))
        (pat : String → Bool),
      (cacheDelete true true sf store pat).1 = Except.ok 0) ∧
    (∀ (sf : Option PyExc) (store : List (String × String)) (k : String),
      cacheExists false sf store k = Except.ok false) ∧
    (∀ (store : List (String × String)) (k : String),
      cacheExists true (some .circuitBreakerOpen) store k = Except.ok false) ∧
    (∀ (store : List (String × String)) (k : String),
      cacheExists true (some .redisError) store k = Except.ok false) := by
  refine ⟨?_, ?_, ?_, ?_, ?_, ?_, ?_, ?_, ?_, ?_, ?_, ?_⟩ <;>
    intro a b <;> intros <;>
    first
      | rfl
      | (cases a <;> cases b <;> rfl)

/-! ## JSON codec round-trip lemmas -/

/-- Two lists with distinct heads differ. -/
theorem ne_of_head_ne (l1 l2 : List Char) (c1 c2 : Char)
    (h1 : l1.head? = some c1) (h2 : l2.head? = some c2) (hne : c1 ≠ c2) :
    l1 ≠ l2 := by
  intro he
  rw [he, h2] at h1
  injection h1 with h1
  exact hne h1.symm

/-- The head surviving `dropWhile` fails the predicate. -/
theorem dropWhile_head_not {p : Char → Bool} :
    ∀ (l : List Char) (c : Char) (cs : List Char),
      l.dropWhile p = c :: cs → p c = false := by
  intro l
  induction l with
  | nil =>
    intro c cs h
    simp at h
  | cons a rest ih =>
    intro c cs h
    rw [List.dropWhile_cons] at h
    by_cases hp : p a = true
    · rw [if_pos hp] at h
      exact ih c cs h
    · rw [if_neg hp] at h
      injection h with h1 _
      rw [← h1]
      simpa using hp

/-- `dropWhile` distributes over appending an element that fails the
predicate. -/
theorem dropWhile_append_singleton {p : Char → Bool} (c : Char)
    (hc : p c = false) :
    ∀ l : List Char, (l ++ [c]).dropWhile p = l.dropWhile p ++ [c] := by
  intro l
  induction l with
  | nil =>
    simp [List.dropWhile_cons, hc]
  | cons a rest ih =>
    rw [List.cons_append, List.dropWhile_cons, List.dropWhile_cons]
    by_cases hp : p a = true
    · rw [if_pos hp, if_pos hp, ih]
    · rw [if_neg hp, if_neg hp, List.cons_append]

/-- Trimming keeps the first non-whitespace character in front. -/
theorem trimWs_head (l : List Char) (c : Char) (cs : List Char)
    (h : l.dropWhile isWsC = c :: cs) :
    ∃ cs2, trimWs l = c :: cs2 := by
  have hc : isWsC c = false := dropWhile_head_not l c cs h
  unfold trimWs dropTrailingWs
  rw [h, show (c :: cs).reverse = cs.reverse ++ [c] from by simp,
    dropWhile_append_singleton c hc, List.reverse_append]
  exact ⟨_, rfl⟩

/-- A character that cannot start a JSON document is none of the starters
the fragment parser recognizes. -/
theorem canStartJson_false_elim (c : Char) (hx : canStartJson c = false) :
    c ≠ 'n' ∧ c ≠ 't' ∧ c ≠ 'f' ∧ c ≠ '"' ∧ c ≠ '-' ∧ c ≠ '0' ∧
      isDigitC c = false := by
  refine ⟨?_, ?_, ?_, ?_, ?_, ?_, ?_⟩
  · intro he; rw [he] at hx; exact absurd hx (by decide)
  · intro he; rw [he] at hx; exact absurd hx (by decide)
  · intro he; rw [he] at hx; exact absurd hx (by decide)
  · intro he; rw [he] at hx; exact absurd hx (by decide)
  · intro he; rw [he] at hx; exact absurd hx (by decide)
  · intro he; rw [he] at hx; exact absurd hx (by decide)
  · unfold canStartJson at hx
    exact (Bool.or_eq_false_iff.mp hx).1

/-- Soundness of `definitelyNotJson`: the fragment parser rejects every
string it flags (as does Python's `json.loads`, whose documents all start
with a digit, `-`, `"`, `[`, `{`, `t`, `f`, `n`, `N` or `I`). -/
theorem jsonLoads_of_definitelyNotJson (s : String)
    (h : definitelyNotJson s = true) : jsonLoads s = none := by
  unfold definitelyNotJson at h
  unfold jsonLoads
  cases hdw : s.data.dropWhile isWsC with
  | nil =>
    have htrim : trimWs s.data = [] := by
      unfold trimWs dropTrailingWs
      rw [hdw]
      rfl
    rw [htrim]
    rfl
  | cons c cs =>
    rw [hdw] at h
    have hcs : canStartJson c = false := by simpa using h
    obtain ⟨hn, ht', hf, hq, hm, h0, hd⟩ := canStartJson_false_elim c hcs
    obtain ⟨cs2, htrim⟩ := trimWs_head s.data c cs hdw
    rw [htrim]
    unfold parseJsonChars
    rw [if_neg (ne_of_head_ne _ _ c 'n' (by rfl) (by rfl) hn),
      if_neg (ne_of_head_ne _ _ c 't' (by rfl) (by rfl) ht'),
      if_neg (ne_of_head_ne _ _ c 'f' (by rfl) (by rfl) hf),
      if_neg (by simp only [List.head?_cons, Option.some.injEq]; exact hq)]
    unfold parseJsonInt
    rw [if_neg (by simp only [List.head?_cons, Option.some.injEq]; exact hm)]
    simp only [parseJsonNat]
    rw [if_neg h0, if_neg (by rw [hd]; simp)]
    rfl

end BeamAI
